import Mathlib

/-!
Verification of the message-archive query engine (`src/db/store.go`) against its
natural-language specification.  The Go code is shallowly embedded: the SQLite
tables become lists of records, SQL `ORDER BY` becomes a stable insertion sort,
`LIKE` is modelled by an executable pattern matcher with `%`/`_` wildcards and
ASCII case folding (SQLite's default collation for `LIKE` / `LOWER`), and the
`map[string]string` sender cache becomes a function `String → Option String`
updated write-by-write.
-/

namespace Wahoo

/-- A row of the `messages` table (schema in `NewStore`). -/
structure Message where
  id : String
  chatJid : String
  sender : String
  content : String
  timestamp : Nat
  isFromMe : Bool
  mediaType : String
  filename : String
  url : String
  mediaKey : List Nat
  fileSha256 : List Nat
  fileEncSha256 : List Nat
  fileLength : Nat
  deriving DecidableEq, Repr

/-- A row of the `chats` table. `name` and `last_message_time` are nullable. -/
structure Chat where
  jid : String
  name : Option String
  lastMessageTime : Option Nat
  deriving DecidableEq, Repr

/-- The messages database (`messages.db`): the two tables owned by the archive. -/
structure Db where
  chats : List Chat
  messages : List Message
  deriving DecidableEq, Repr

/-- A row of the read-only `whatsmeow_contacts` table in `whatsapp.db`. -/
structure WaContact where
  jid : String
  fullName : Option String
  pushName : Option String
  deriving DecidableEq, Repr

/-- The read-only whatsmeow database: contact directory plus the lid → pn map. -/
structure WaDb where
  contacts : List WaContact
  lidMap : List (String × String)
  deriving DecidableEq, Repr

/-- The `Store`: the messages DB plus the optional whatsmeow DB (`WaDB` may be nil). -/
structure Store where
  msg : Db
  wa : Option WaDb
  deriving DecidableEq, Repr

/-- Scanned row shape of the message list queries (Go `rawMessage`). -/
structure RawMessage where
  timestamp : Nat
  sender : String
  chatName : Option String
  content : String
  isFromMe : Bool
  chatJid : String
  id : String
  mediaType : String
  deriving DecidableEq, Repr

/-- Scanned row shape of the chat queries (Go `rawChat`). -/
structure RawChat where
  jid : String
  name : Option String
  lastTime : Option Nat
  lastMsg : Option String
  lastSender : Option String
  lastIsFromMe : Option Bool
  deriving DecidableEq, Repr

/-- Structured message output (Go `MessageDict`). -/
structure MessageDict where
  id : String
  timestamp : Nat
  sender : String
  senderJid : String
  content : String
  isFromMe : Bool
  chatJid : String
  chatName : Option String
  mediaType : Option String
  deriving DecidableEq, Repr

/-- Structured chat output (Go `ChatDict`). -/
structure ChatDict where
  jid : String
  name : Option String
  isGroup : Bool
  lastMessageTime : Option Nat
  lastMessage : Option String
  lastSender : Option String
  lastIsFromMe : Option Bool
  deriving DecidableEq, Repr

/-- Structured contact output (Go `ContactDict`). -/
structure ContactDict where
  phoneNumber : String
  name : Option String
  jid : String
  deriving DecidableEq, Repr

/-- A message together with its surrounding context (Go `MessageContextDict`). -/
structure MessageContextDict where
  message : MessageDict
  before : List MessageDict
  after : List MessageDict
  deriving DecidableEq, Repr

/-- The sender cache `map[string]string`; a missing key reads as `none`. -/
def Cache : Type := String → Option String

/-- Map assignment `cache[k] = v`. -/
def cacheInsert (c : Cache) (k v : String) : Cache :=
  fun x => if x = k then some v else c x

/-- ASCII lower-casing, as SQLite `LOWER` and Go both restrict to ASCII here. -/
def lowerChar (c : Char) : Char :=
  if 'A' ≤ c ∧ c ≤ 'Z' then Char.ofNat (c.toNat + 32) else c

/-- Lower-case every character of a string (SQLite `LOWER`). -/
def sqlLower (s : String) : String :=
  ⟨s.toList.map lowerChar⟩

/-- SQL `LIKE` matching over character lists: `%` matches any sequence (so the
rest of the pattern must match some suffix), `_` matches any one character,
anything else matches itself. -/
def likeMatch : List Char → List Char → Bool
  | [], cs => cs.isEmpty
  | '%' :: ps, cs => cs.tails.any fun t => likeMatch ps t
  | '_' :: ps, cs =>
    match cs with
    | [] => false
    | _ :: cs' => likeMatch ps cs'
  | p :: ps, cs =>
    match cs with
    | [] => false
    | c :: cs' => p = c && likeMatch ps cs'

/-- SQLite `s LIKE pattern`: case-insensitive for ASCII (the default collation). -/
def sqlLike (s pattern : String) : Bool :=
  likeMatch (sqlLower pattern).toList (sqlLower s).toList

/-- First index of `x`, as Go `strings.Index` (restricted to a one-char needle). -/
def idxOf? : List Char → Char → Option Nat
  | [], _ => none
  | c :: t, x => if c = x then some 0 else (idxOf? t x).map (· + 1)

/-- The `idx := strings.Index(jid, "@"); if idx > 0 then jid[:idx]` pattern used
throughout the cache builder and sender resolution. -/
def localPart? (s : String) : Option String :=
  match idxOf? s.toList '@' with
  | some i => if 0 < i then some ⟨s.toList.take i⟩ else none
  | none => none

/-- Register a name under the full identifier and, when the `@` separator is not
first, under its local part too (the repeated two-line pattern in `BuildSenderCache`). -/
def cacheIndexName (c : Cache) (jid name : String) : Cache :=
  let c := cacheInsert c jid name
  match localPart? jid with
  | some lp => cacheInsert c lp name
  | none => c

/-- Source 1 of `BuildSenderCache`: chat names (rows with a non-null, non-empty name). -/
def chatCacheStep (c : Cache) (chat : Chat) : Cache :=
  match chat.name with
  | some n => if n = "" then c else cacheIndexName c chat.jid n
  | none => c

/-- Effective contact name: `full_name`, falling back to `push_name` (NULL reads as ""). -/
def contactName (ct : WaContact) : String :=
  let name := ct.fullName.getD ""
  if name = "" then ct.pushName.getD "" else name

/-- Source 2 of `BuildSenderCache`: whatsmeow contacts (skipping empty names). -/
def contactCacheStep (c : Cache) (ct : WaContact) : Cache :=
  let name := contactName ct
  if name = "" then c else cacheIndexName c ct.jid name

/-- Source 3 of `BuildSenderCache`: one `whatsmeow_lid_map` row; resolves the
phone number through the cache built so far and registers the lid keys. -/
def lidCacheStep (c : Cache) (e : String × String) : Cache :=
  let pnJid := e.2 ++ "@s.whatsapp.net"
  let viaJid := (c pnJid).getD ""
  let name := if viaJid = "" then (c e.2).getD "" else viaJid
  if name = "" then c else cacheInsert (cacheInsert c (e.1 ++ "@lid") name) e.1 name

/-- Go `BuildSenderCache`: chat names first, then (when the whatsmeow DB is
present) contact names overwriting them, then the lid map. -/
def BuildSenderCache (s : Store) : Cache :=
  let cache : Cache := fun _ => none
  let cache := s.msg.chats.foldl chatCacheStep cache
  match s.wa with
  | none => cache
  | some wa =>
    let cache := wa.contacts.foldl contactCacheStep cache
    wa.lidMap.foldl lidCacheStep cache

/-- Go `resolveSender`: cache on the full JID, then on its local part, else the JID. -/
def resolveSender (senderJid : String) (cache : Cache) : String :=
  match cache senderJid with
  | some name => name
  | none =>
    match localPart? senderJid with
    | some lp =>
      match cache lp with
      | some name => name
      | none => senderJid
    | none => senderJid

/-- Go `resolveMessageSender`: own messages display as "Me". -/
def resolveMessageSender (senderJid : String) (isFromMe : Bool) (cache : Cache) : String :=
  if isFromMe then "Me" else resolveSender senderJid cache

/-- Go `rawToDict`: project a scanned row to the output shape. -/
def rawToDict (r : RawMessage) (cache : Cache) : MessageDict :=
  { id := r.id
    timestamp := r.timestamp
    sender := resolveMessageSender r.sender r.isFromMe cache
    senderJid := r.sender
    content := r.content
    isFromMe := r.isFromMe
    chatJid := r.chatJid
    chatName := match r.chatName with
      | some n => if n = "" then none else some n
      | none => none
    mediaType := if r.mediaType = "" then none else some r.mediaType }

/-- Go `rawChat.toDict`: project a scanned chat row to the output shape. -/
def RawChat.toDict (r : RawChat) (cache : Cache) : ChatDict :=
  { jid := r.jid
    name := r.name
    isGroup := r.jid.endsWith "@g.us"
    lastMessageTime := r.lastTime
    lastMessage := r.lastMsg
    lastSender := match r.lastSender with
      | some sj => some (resolveMessageSender sj (r.lastIsFromMe.getD false) cache)
      | none => none
    lastIsFromMe := r.lastIsFromMe }

/-- Order of `ORDER BY messages.timestamp DESC`. -/
def tsDesc (a b : RawMessage) : Prop := b.timestamp ≤ a.timestamp

instance : DecidableRel tsDesc := fun a b => Nat.decLe b.timestamp a.timestamp

instance : IsTotal RawMessage tsDesc :=
  ⟨fun a b => (Nat.le_total b.timestamp a.timestamp).imp id id⟩

instance : IsTrans RawMessage tsDesc :=
  ⟨fun _ _ _ h h' => Nat.le_trans h' h⟩

/-- Order of `ORDER BY messages.timestamp ASC`. -/
def tsAsc (a b : RawMessage) : Prop := a.timestamp ≤ b.timestamp

instance : DecidableRel tsAsc := fun a b => Nat.decLe a.timestamp b.timestamp

instance : IsTotal RawMessage tsAsc :=
  ⟨fun a b => (Nat.le_total a.timestamp b.timestamp).imp id id⟩

instance : IsTrans RawMessage tsAsc :=
  ⟨fun _ _ _ h h' => Nat.le_trans h h'⟩

/-- The `FROM messages JOIN chats ON messages.chat_jid = chats.jid` scan shared by
all message queries, producing the columns of the Go `rawMessage` scan.  The chat
is keyed by its primary key, so at most one row matches each message. -/
def joinRows (db : Db) : List RawMessage :=
  db.messages.filterMap fun m =>
    (db.chats.find? fun c => decide (c.jid = m.chatJid)).map fun c =>
      { timestamp := m.timestamp
        sender := m.sender
        chatName := c.name
        content := m.content
        isFromMe := m.isFromMe
        chatJid := c.jid
        id := m.id
        mediaType := m.mediaType }

/-- Go `ListMessagesOpts`. -/
structure ListMessagesOpts where
  after : Option Nat
  before : Option Nat
  senderPhoneNumber : Option String
  chatJid : Option String
  query : Option String
  limit : Nat
  page : Nat
  includeContext : Bool
  contextBefore : Nat
  contextAfter : Nat
  deriving DecidableEq, Repr

/-- The defaulting prologue of `ListMessages` (limit 20, context counts 1). -/
def withDefaults (o : ListMessagesOpts) : ListMessagesOpts :=
  let o := if o.limit = 0 then { o with limit := 20 } else o
  let o := if o.includeContext ∧ o.contextBefore = 0 then { o with contextBefore := 1 } else o
  if o.includeContext ∧ o.contextAfter = 0 then { o with contextAfter := 1 } else o

/-- The conjunctive `WHERE` clauses of `ListMessages`, one per present filter. -/
def msgMatch (o : ListMessagesOpts) (r : RawMessage) : Bool :=
  (match o.after with
   | some t => decide (t < r.timestamp)
   | none => true) &&
  (match o.before with
   | some t => decide (r.timestamp < t)
   | none => true) &&
  (match o.senderPhoneNumber with
   | some p => decide (r.sender = p)
   | none => true) &&
  (match o.chatJid with
   | some j => decide (r.chatJid = j)
   | none => true) &&
  (match o.query with
   | some q => sqlLike r.content ("%" ++ q ++ "%") || sqlLike r.mediaType ("%" ++ q ++ "%")
   | none => true)

/-- The matched rows of `ListMessages`: filter, sort by timestamp descending,
then `LIMIT ? OFFSET ?` with offset `page * limit`. -/
def listMessagesRows (db : Db) (o : ListMessagesOpts) : List RawMessage :=
  ((List.insertionSort tsDesc ((joinRows db).filter (msgMatch o))).drop (o.page * o.limit)).take
    o.limit

/-- The `before` context query: same chat, strictly earlier, nearest first,
`LIMIT n` (shared verbatim by `getMessageContextRaw` and `GetMessageContext`). -/
def contextBeforeRows (db : Db) (target : RawMessage) (n : Nat) : List RawMessage :=
  (List.insertionSort tsDesc
    ((joinRows db).filter fun r =>
      decide (r.chatJid = target.chatJid ∧ r.timestamp < target.timestamp))).take n

/-- The `after` context query: same chat, strictly later, ascending, `LIMIT n`. -/
def contextAfterRows (db : Db) (target : RawMessage) (n : Nat) : List RawMessage :=
  (List.insertionSort tsAsc
    ((joinRows db).filter fun r =>
      decide (r.chatJid = target.chatJid ∧ target.timestamp < r.timestamp))).take n

/-- The target lookup `WHERE messages.id = ?` (no chat constraint): the first
joined row whose id matches, in storage order. -/
def findTarget (db : Db) (messageId : String) : Option RawMessage :=
  (joinRows db).find? fun r => decide (r.id = messageId)

/-- Go `getMessageContextRaw`: before (reversed to chronological) ++ target ++ after. -/
def getMessageContextRaw (db : Db) (messageId : String) (before after : Nat) :
    Option (List RawMessage) :=
  match findTarget db messageId with
  | none => none
  | some target =>
    some ((contextBeforeRows db target before).reverse ++
      target :: contextAfterRows db target after)

/-- One step of the context de-duplication loop: emit the row unless its id was seen. -/
def emitMsg (cache : Cache) (acc : List MessageDict × List String) (m : RawMessage) :
    List MessageDict × List String :=
  if m.id ∈ acc.2 then acc else (acc.1 ++ [rawToDict m cache], m.id :: acc.2)

/-- Emit one context window through the seen-set. -/
def emitWindow (cache : Cache) (acc : List MessageDict × List String)
    (ctx : List RawMessage) : List MessageDict × List String :=
  ctx.foldl (emitMsg cache) acc

/-- Go `ListMessages`: matched rows, then either plain projection or context
expansion with id de-duplication (a failed context lookup is skipped). -/
def ListMessages (s : Store) (o0 : ListMessagesOpts) : List MessageDict :=
  let o := withDefaults o0
  let msgs := listMessagesRows s.msg o
  let cache := BuildSenderCache s
  if o.includeContext ∧ msgs ≠ [] then
    (msgs.foldl
      (fun acc msg =>
        match getMessageContextRaw s.msg msg.id o.contextBefore o.contextAfter with
        | none => acc
        | some ctx => emitWindow cache acc ctx)
      ([], [])).1
  else msgs.map fun m => rawToDict m cache

/-- Go `GetMessageContext`: the dedicated context operation, with defaults 5/5
and projected output; `none` models the "message not found" error. -/
def GetMessageContext (s : Store) (messageId : String) (before after : Nat) :
    Option MessageContextDict :=
  let before := if before = 0 then 5 else before
  let after := if after = 0 then 5 else after
  match findTarget s.msg messageId with
  | none => none
  | some target =>
    let cache := BuildSenderCache s
    some
      { message := rawToDict target cache
        before := ((contextBeforeRows s.msg target before).map fun m => rawToDict m cache).reverse
        after := (contextAfterRows s.msg target after).map fun m => rawToDict m cache }

/-- Go `ListChatsOpts`. -/
structure ListChatsOpts where
  query : Option String
  limit : Nat
  page : Nat
  includeLastMessage : Bool
  sortBy : String
  deriving DecidableEq, Repr

/-- Order of `ORDER BY chats.last_message_time DESC` (SQLite sorts NULLs last
under `DESC`). -/
def lastActiveDesc (a b : RawChat) : Bool :=
  match a.lastTime, b.lastTime with
  | some x, some y => y ≤ x
  | some _, none => true
  | none, some _ => false
  | none, none => true

/-- Order of `ORDER BY chats.name` (ascending, NULLs first, binary collation). -/
def chatNameAsc (a b : RawChat) : Bool :=
  match a.name, b.name with
  | none, _ => true
  | some _, none => false
  | some x, some y => x ≤ y

/-- Propositional form of `lastActiveDesc` for the sorting machinery. -/
def lastActiveDescRel (a b : RawChat) : Prop := lastActiveDesc a b = true

instance : DecidableRel lastActiveDescRel := fun _ _ => instDecidableEqBool _ _

/-- Propositional form of `chatNameAsc` for the sorting machinery. -/
def chatNameAscRel (a b : RawChat) : Prop := chatNameAsc a b = true

instance : DecidableRel chatNameAscRel := fun _ _ => instDecidableEqBool _ _

/-- Tables named by the SELECT list of `ListChats`/`GetChat`: the message columns
(`content`, `sender`, `is_from_me`) are always selected. -/
def listChatsSelectTables : List String := ["chats", "messages"]

/-- Tables brought into scope by FROM/JOIN: the messages join is appended only
when `includeLastMessage` is set. -/
def listChatsFromTables (includeLastMessage : Bool) : List String :=
  if includeLastMessage then ["chats", "messages"] else ["chats"]

/-- A query is well-formed when every table named in the SELECT list is in scope;
otherwise SQLite rejects it ("no such column"). -/
def queryWellFormed (sel fromTables : List String) : Bool :=
  sel.all fun t => fromTables.contains t

/-- A chat row with NULL message columns (no matching last message). -/
def chatOnlyRow (c : Chat) : RawChat :=
  ⟨c.jid, c.name, c.lastMessageTime, none, none, none⟩

/-- A chat row joined with one message's columns. -/
def chatMsgRow (c : Chat) (m : Message) : RawChat :=
  ⟨c.jid, c.name, c.lastMessageTime, some m.content, some m.sender, some m.isFromMe⟩

/-- The `LEFT JOIN messages ON chats.jid = messages.chat_jid AND
chats.last_message_time = messages.timestamp`: one row per matching message, or
the bare chat when none matches (or the chat's timestamp is NULL). -/
def lastMessageJoin (db : Db) (c : Chat) : List RawChat :=
  match c.lastMessageTime with
  | none => [chatOnlyRow c]
  | some t =>
    match db.messages.filter fun m => decide (m.chatJid = c.jid ∧ m.timestamp = t) with
    | [] => [chatOnlyRow c]
    | ms => ms.map (chatMsgRow c)

/-- The scanned rows of the chat queries before filtering. -/
def chatRows (db : Db) (includeLastMessage : Bool) : List RawChat :=
  if includeLastMessage then db.chats.flatMap (lastMessageJoin db)
  else db.chats.map chatOnlyRow

/-- The `(LOWER(chats.name) LIKE LOWER(?) OR chats.jid LIKE ?)` filter; a NULL
name makes the first disjunct NULL, hence not satisfied. -/
def chatQueryMatch (q : String) (r : RawChat) : Bool :=
  (match r.name with
   | some n => sqlLike n ("%" ++ q ++ "%")
   | none => false) ||
    sqlLike r.jid ("%" ++ q ++ "%")

/-- Go `ListChats`.  The SELECT list always names message columns but the join
is only appended when `includeLastMessage` is set, so the query is rejected by
the storage engine otherwise. -/
def ListChats (s : Store) (o0 : ListChatsOpts) : Except String (List ChatDict) :=
  let o := if o0.limit = 0 then { o0 with limit := 20 } else o0
  let o := if o.sortBy = "" then { o with sortBy := "last_active" } else o
  if queryWellFormed listChatsSelectTables (listChatsFromTables o.includeLastMessage) then
    let rows := chatRows s.msg o.includeLastMessage
    let rows :=
      match o.query with
      | some q => rows.filter (chatQueryMatch q)
      | none => rows
    let rows :=
      if o.sortBy = "last_active" then List.insertionSort lastActiveDescRel rows
      else List.insertionSort chatNameAscRel rows
    let rows := (rows.drop (o.page * o.limit)).take o.limit
    let cache := BuildSenderCache s
    Except.ok (rows.map fun r => r.toDict cache)
  else Except.error "list chats query: no such column: messages.content"

/-- Go `GetChat`: same SELECT list and conditional join as `ListChats`; a missing
row yields `Except.ok none` (the Go returns `nil, nil` on `ErrNoRows`). -/
def GetChat (s : Store) (chatJid : String) (includeLastMessage : Bool) :
    Except String (Option ChatDict) :=
  if queryWellFormed listChatsSelectTables (listChatsFromTables includeLastMessage) then
    let rows := (chatRows s.msg includeLastMessage).filter fun r => decide (r.jid = chatJid)
    match rows.head? with
    | none => Except.ok none
    | some r => Except.ok (some (r.toDict (BuildSenderCache s)))
  else Except.error "get chat: no such column: m.content"

/-- Order of `ORDER BY name, jid` in `SearchContacts` over the selected
`(jid, name)` pairs: by name (NULLs first) and then by key. -/
def contactLe (a b : String × Option String) : Prop :=
  match a.2, b.2 with
  | none, none => a.1 ≤ b.1
  | none, some _ => True
  | some _, none => False
  | some x, some y => x < y ∨ (x = y ∧ a.1 ≤ b.1)

instance : DecidableRel contactLe := fun a b => by
  rcases a with ⟨a1, _ | an⟩ <;> rcases b with ⟨b1, _ | bn⟩ <;>
    simp only [contactLe] <;> infer_instance

instance : IsTotal (String × Option String) contactLe := by
  constructor
  rintro ⟨a1, _ | an⟩ ⟨b1, _ | bn⟩ <;> simp only [contactLe]
  · exact le_total a1 b1
  · exact Or.inl trivial
  · exact Or.inr trivial
  · rcases lt_trichotomy an bn with h | h | h
    · exact Or.inl (Or.inl h)
    · subst h
      rcases le_total a1 b1 with h1 | h1
      · exact Or.inl (Or.inr ⟨rfl, h1⟩)
      · exact Or.inr (Or.inr ⟨rfl, h1⟩)
    · exact Or.inr (Or.inl h)

instance : IsTrans (String × Option String) contactLe := by
  constructor
  rintro ⟨a1, _ | an⟩ ⟨b1, _ | bn⟩ ⟨c1, _ | cn⟩ <;> simp only [contactLe] <;>
    intro hab hbc <;> try trivial
  · exact le_trans hab hbc
  · rcases hab with hab | ⟨hab, hab'⟩ <;> rcases hbc with hbc | ⟨hbc, hbc'⟩
    · exact Or.inl (lt_trans hab hbc)
    · exact Or.inl (hbc ▸ hab)
    · exact Or.inl (hab ▸ hbc)
    · exact Or.inr ⟨hab.trans hbc, le_trans hab' hbc'⟩

/-- The `WHERE` clause of `SearchContacts`: name or key matches the LIKE
pattern around the query, and the key does not match the group pattern. -/
def chatSearchMatch (query : String) (c : Chat) : Bool :=
  ((match c.name with
    | some n => sqlLike n ("%" ++ query ++ "%")
    | none => false) ||
      sqlLike c.jid ("%" ++ query ++ "%")) &&
    !sqlLike c.jid "%@g.us"

/-- Go `SearchContacts`: distinct non-group `(jid, name)` pairs matching the
query pattern, ordered by name then key, capped at 50. -/
def SearchContacts (db : Db) (query : String) : List ContactDict :=
  let rows := db.chats.filter (chatSearchMatch query)
  let pairs := (rows.map fun c => (c.jid, c.name)).dedup
  let sorted := List.insertionSort contactLe pairs
  (sorted.take 50).map fun p =>
    { phoneNumber := (localPart? p.1).getD p.1, name := p.2, jid := p.1 }

/-- The inner join `FROM chats c JOIN messages m ON c.jid = m.chat_jid` with the
`WHERE m.sender = ? OR c.jid = ?` filter of `GetContactChats`: one selected
tuple per (chat, message) pair. -/
def contactChatTuples (db : Db) (jid : String) : List RawChat :=
  db.chats.flatMap fun c =>
    (db.messages.filter fun m =>
      decide (m.chatJid = c.jid) && (decide (m.sender = jid) || decide (c.jid = jid))).map
      (chatMsgRow c)

/-- Go `GetContactChats`: `SELECT DISTINCT` over the inner join of chats and
messages, keeping rows where the identifier is the message sender or the chat
key, ordered by last activity, paginated. -/
def GetContactChats (s : Store) (jid : String) (limit page : Nat) : List ChatDict :=
  let limit := if limit = 0 then 20 else limit
  let rows := List.insertionSort lastActiveDescRel (contactChatTuples s.msg jid).dedup
  ((rows.drop (page * limit)).take limit).map fun r => r.toDict (BuildSenderCache s)

/-- Go `StoreMessage`: skip when both content and media type are empty, else
`INSERT OR REPLACE` keyed on `(id, chat_jid)`. -/
def StoreMessage (db : Db) (id chatJid sender content : String) (timestamp : Nat)
    (isFromMe : Bool) (mediaType filename url : String)
    (mediaKey fileSha256 fileEncSha256 : List Nat) (fileLength : Nat) : Db :=
  if content = "" ∧ mediaType = "" then db
  else
    { db with
      messages :=
        (db.messages.filter fun m => !decide (m.id = id ∧ m.chatJid = chatJid)) ++
          [{ id := id, chatJid := chatJid, sender := sender, content := content
             timestamp := timestamp, isFromMe := isFromMe, mediaType := mediaType
             filename := filename, url := url, mediaKey := mediaKey
             fileSha256 := fileSha256, fileEncSha256 := fileEncSha256
             fileLength := fileLength }] }

/-- Specification-side de-duplication: keep each id's first occurrence, given the
ids already emitted. -/
def dedupByIdAux (seen : List String) : List RawMessage → List RawMessage
  | [] => []
  | m :: ms =>
    if m.id ∈ seen then dedupByIdAux seen ms
    else m :: dedupByIdAux (m.id :: seen) ms

/-- Specification-side "first occurrence wins" de-duplication by message id. -/
def dedupById (l : List RawMessage) : List RawMessage := dedupByIdAux [] l

/-- The pair of writes registering a name under an identifier and (when the `@`
is not first) its local part. -/
def nameWrites (jid name : String) : List (String × String) :=
  (jid, name) ::
    (match localPart? jid with
     | some lp => [(lp, name)]
     | none => [])

/-- Cache writes contributed by one chat row. -/
def chatWrites (chat : Chat) : List (String × String) :=
  match chat.name with
  | some n => if n = "" then [] else nameWrites chat.jid n
  | none => []

/-- Cache writes contributed by one contact row. -/
def contactWrites (ct : WaContact) : List (String × String) :=
  let name := contactName ct
  if name = "" then [] else nameWrites ct.jid name

/-- Replay a sequence of map assignments. -/
def applyWrites (c : Cache) (ws : List (String × String)) : Cache :=
  ws.foldl (fun c w => cacheInsert c w.1 w.2) c

/-- Cache writes contributed by one lid-map row, resolved against the cache at
the time the row is processed. -/
def lidEntryWrites (c : Cache) (e : String × String) : List (String × String) :=
  let pnJid := e.2 ++ "@s.whatsapp.net"
  let viaJid := (c pnJid).getD ""
  let name := if viaJid = "" then (c e.2).getD "" else viaJid
  if name = "" then [] else [(e.1 ++ "@lid", name), (e.1, name)]

/-- Cache writes of the whole lid phase, threading the growing cache. -/
def lidWritesFrom (c : Cache) : List (String × String) → List (String × String)
  | [] => []
  | e :: rest =>
    let ws := lidEntryWrites c e
    ws ++ lidWritesFrom (applyWrites c ws) rest

/-- Every cache write performed by `BuildSenderCache`, in execution order:
chat names, then contact names, then the lid phase. -/
def cacheWrites (s : Store) : List (String × String) :=
  let w1 := s.msg.chats.flatMap chatWrites
  match s.wa with
  | none => w1
  | some wa =>
    let w2 := w1 ++ wa.contacts.flatMap contactWrites
    w2 ++ lidWritesFrom (applyWrites (fun _ => none) w2) wa.lidMap

/-- Last-write-wins reading of a write sequence. -/
def lookupLast (ws : List (String × String)) (k : String) : Option String :=
  (ws.reverse.find? fun w => decide (w.1 = k)).map (·.2)

/-- The display-name rule exactly as the specification words it: "Me" when
from-me; otherwise the cache at the full identifier, then at the substring
before the first `@`, else the identifier itself. -/
def claimDisplayName (sender : String) (fromMe : Bool) (cache : Cache) : String :=
  if fromMe then "Me"
  else
    match cache sender with
    | some n => n
    | none =>
      match cache ⟨sender.toList.takeWhile fun c => c ≠ '@'⟩ with
      | some n => n
      | none => sender

/-- The amended display-name rule: the local part is consulted only when the
sender contains an `@` that is not its first character. -/
def specDisplayName (sender : String) (fromMe : Bool) (cache : Cache) : String :=
  if fromMe then "Me"
  else
    match cache sender with
    | some n => n
    | none =>
      let lp : String := ⟨sender.toList.takeWhile fun c => c ≠ '@'⟩
      if '@' ∈ sender.toList ∧ lp ≠ "" then
        match cache lp with
        | some n => n
        | none => sender
      else sender

/-- Whether `q` matches the start of `s`, character by character. -/
def leadMatch : List Char → List Char → Bool
  | [], _ => true
  | _ :: _, [] => false
  | a :: q, b :: s => a = b && leadMatch q s

/-- Whether `q` occurs contiguously somewhere in `s`. -/
def occursIn (q s : List Char) : Bool :=
  leadMatch q s ||
    match s with
    | [] => false
    | _ :: s' => occursIn q s'

/-- Case-insensitive substring containment, the specification's reading of the
`SearchContacts` query match. -/
def containsCI (q s : String) : Bool :=
  occursIn (sqlLower q).toList (sqlLower s).toList

/-- A message constructor with empty media fields, for concrete examples. -/
def mkMsg (id chatJid sender content : String) (ts : Nat) (fromMe : Bool)
    (media : String := "") : Message :=
  ⟨id, chatJid, sender, content, ts, fromMe, media, "", "", [], [], [], 0⟩

/-- C2: for every call with includeLastMessage=false, ListChats and GetChat
return a storage failure rather than a successful result: the SELECT list always
names the message columns but the join introducing them is only appended when
includeLastMessage is true, so the query is malformed whenever the flag is false. -/
theorem listChats_getChat_error_without_last_message :
    (∀ (s : Store) (o : ListChatsOpts), o.includeLastMessage = false →
      ListChats s o = Except.error "list chats query: no such column: messages.content") ∧
    (∀ (s : Store) (jid : String),
      GetChat s jid false = Except.error "get chat: no such column: m.content") := by
  constructor
  · intro s o h
    obtain ⟨q, lim, pg, ilm, sb⟩ := o
    cases h
    by_cases hl : lim = 0 <;> by_cases hsb : sb = "" <;>
      simp [ListChats, hl, hsb, queryWellFormed, listChatsFromTables, listChatsSelectTables]
  · intro s jid
    rfl

/-- Witness for C2 at a concrete store and options. -/
theorem listChats_getChat_error_without_last_message_witness :
    ListChats ⟨⟨[], []⟩, none⟩ ⟨none, 0, 0, false, ""⟩ =
      Except.error "list chats query: no such column: messages.content" ∧
    GetChat ⟨⟨[], []⟩, none⟩ "c" false =
      Except.error "get chat: no such column: m.content" :=
  ⟨listChats_getChat_error_without_last_message.1 ⟨⟨[], []⟩, none⟩ ⟨none, 0, 0, false, ""⟩ rfl,
   listChats_getChat_error_without_last_message.2 ⟨⟨[], []⟩, none⟩ "c"⟩

/-- C8: ingesting a message whose content is empty and which carries no media
type is a silent no-op, and consequently no stored row ever has neither text
content nor a media type. -/
theorem storeMessage_empty_noop :
    (∀ (db : Db) (id chatJid sender content : String) (ts : Nat) (fromMe : Bool)
        (mediaType filename url : String) (mk f1 f2 : List Nat) (flen : Nat),
      content = "" → mediaType = "" →
      StoreMessage db id chatJid sender content ts fromMe mediaType filename url mk f1 f2
        flen = db) ∧
    (∀ (db : Db) (id chatJid sender content : String) (ts : Nat) (fromMe : Bool)
        (mediaType filename url : String) (mk f1 f2 : List Nat) (flen : Nat),
      (∀ m ∈ db.messages, m.content ≠ "" ∨ m.mediaType ≠ "") →
      ∀ m ∈ (StoreMessage db id chatJid sender content ts fromMe mediaType filename url mk f1
          f2 flen).messages,
        m.content ≠ "" ∨ m.mediaType ≠ "") := by
  constructor
  · intro db id chatJid sender content ts fromMe mediaType filename url mk f1 f2 flen hc hm
    subst hc
    subst hm
    simp [StoreMessage]
  · intro db id chatJid sender content ts fromMe mediaType filename url mk f1 f2 flen hinv m hm
    unfold StoreMessage at hm
    split at hm
    · exact hinv m hm
    · next hguard =>
      simp only [List.mem_append, List.mem_singleton] at hm
      rcases hm with hm | hm
      · exact hinv m (List.mem_of_mem_filter hm)
      · subst hm
        simpa using Decidable.not_and_iff_or_not.mp hguard

/-- Witness for C8: a concrete empty-content, no-media upsert leaves a concrete
table untouched, and the row invariant holds afterwards. -/
theorem storeMessage_empty_noop_witness :
    StoreMessage ⟨[⟨"c", some "C", some 1⟩], [mkMsg "1" "c" "s" "hi" 1 false]⟩
        "9" "c" "s" "" 7 false "" "" "" [] [] [] 0 =
      ⟨[⟨"c", some "C", some 1⟩], [mkMsg "1" "c" "s" "hi" 1 false]⟩ ∧
    ∀ m ∈ (StoreMessage ⟨[⟨"c", some "C", some 1⟩], [mkMsg "1" "c" "s" "hi" 1 false]⟩
        "9" "c" "s" "" 7 false "" "" "" [] [] [] 0).messages,
      m.content ≠ "" ∨ m.mediaType ≠ "" :=
  ⟨storeMessage_empty_noop.1 _ "9" "c" "s" "" 7 false "" "" "" [] [] [] 0 rfl rfl,
   storeMessage_empty_noop.2 _ "9" "c" "s" "" 7 false "" "" "" [] [] [] 0
     (by decide)⟩

theorem applyWrites_append (c : Cache) (ws1 ws2 : List (String × String)) :
    applyWrites c (ws1 ++ ws2) = applyWrites (applyWrites c ws1) ws2 := by
  simp [applyWrites]

theorem lookupLast_cons (w : String × String) (ws : List (String × String)) (k : String) :
    lookupLast (w :: ws) k =
      (lookupLast ws k).or (if w.1 = k then some w.2 else none) := by
  unfold lookupLast
  rw [List.reverse_cons, List.find?_append]
  cases h : (ws.reverse.find? fun x => decide (x.1 = k)) with
  | none =>
    simp only [h, Option.none_or, Option.map_none]
    by_cases hk : w.1 = k <;> simp [List.find?, hk]
  | some v =>
    simp [h]

theorem applyWrites_or (ws : List (String × String)) (c : Cache) (k : String) :
    applyWrites c ws k = (lookupLast ws k).or (c k) := by
  induction ws generalizing c with
  | nil => simp [applyWrites, lookupLast]
  | cons w ws ih =>
    show applyWrites (cacheInsert c w.1 w.2) ws k = _
    rw [ih, lookupLast_cons]
    cases h : lookupLast ws k with
    | some v => simp
    | none =>
      simp only [Option.none_or]
      unfold cacheInsert
      by_cases hk : w.1 = k
      · subst hk
        simp
      · have : ¬ k = w.1 := fun h => hk h.symm
        simp [hk, this]

theorem foldl_step_applyWrites {α : Type} (step : Cache → α → Cache)
    (itemW : α → List (String × String)) (hstep : ∀ c i, step c i = applyWrites c (itemW i)) :
    ∀ (items : List α) (c : Cache),
      items.foldl step c = applyWrites c (items.flatMap itemW) := by
  intro items
  induction items with
  | nil => intro c; rfl
  | cons i t ih =>
    intro c
    show t.foldl step (step c i) = _
    rw [ih, hstep, List.flatMap_cons, applyWrites_append]

theorem chatCacheStep_writes (c : Cache) (chat : Chat) :
    chatCacheStep c chat = applyWrites c (chatWrites chat) := by
  unfold chatCacheStep chatWrites
  cases chat.name with
  | none => rfl
  | some n =>
    by_cases hn : n = ""
    · simp [hn, applyWrites]
    · simp only [hn, if_false]
      unfold cacheIndexName nameWrites
      cases localPart? chat.jid <;> rfl

theorem contactCacheStep_writes (c : Cache) (ct : WaContact) :
    contactCacheStep c ct = applyWrites c (contactWrites ct) := by
  unfold contactCacheStep contactWrites
  by_cases hn : contactName ct = ""
  · simp [hn, applyWrites]
  · simp only [hn, if_false]
    unfold cacheIndexName nameWrites
    cases localPart? ct.jid <;> rfl

theorem lidCacheStep_writes (c : Cache) (e : String × String) :
    lidCacheStep c e = applyWrites c (lidEntryWrites c e) := by
  unfold lidCacheStep lidEntryWrites
  by_cases hn :
      (if ((c (e.2 ++ "@s.whatsapp.net")).getD "") = ""
       then (c e.2).getD "" else (c (e.2 ++ "@s.whatsapp.net")).getD "") = "" <;>
    simp only [hn, if_true, if_false] <;> rfl

theorem lidFold_writes (l : List (String × String)) (c : Cache) :
    l.foldl lidCacheStep c = applyWrites c (lidWritesFrom c l) := by
  induction l generalizing c with
  | nil => rfl
  | cons e t ih =>
    show t.foldl lidCacheStep (lidCacheStep c e) = _
    rw [ih, lidCacheStep_writes, lidWritesFrom, applyWrites_append]

/-- The concrete scenario of the claim: a chat-table name "Bob (phone)" and a
contact-directory full name "Bob Smith" for the same identifier. -/
def exStore5 : Store :=
  ⟨{ chats := [⟨"111@s.whatsapp.net", some "Bob (phone)", none⟩], messages := [] },
   some { contacts := [⟨"111@s.whatsapp.net", some "Bob Smith", none⟩], lidMap := [] }⟩

/-- C5: the identity cache equals the last-write-wins replay of the write
sequence produced source by source in ascending priority (each write registering
a non-empty name under the identifier and, when present, its stripped form), and
in the claim's concrete scenario the contact-directory name "Bob Smith"
overwrites the chat-table name when sender "111" is resolved. -/
theorem buildSenderCache_priority_merge :
    (∀ (s : Store) (k : String), BuildSenderCache s k = lookupLast (cacheWrites s) k) ∧
    resolveSender "111" (BuildSenderCache exStore5) = "Bob Smith" := by
  constructor
  · intro s k
    unfold BuildSenderCache cacheWrites
    cases hwa : s.wa with
    | none =>
      dsimp only
      rw [foldl_step_applyWrites chatCacheStep chatWrites chatCacheStep_writes, applyWrites_or]
      simp
    | some wa =>
      dsimp only
      rw [foldl_step_applyWrites chatCacheStep chatWrites chatCacheStep_writes,
        foldl_step_applyWrites contactCacheStep contactWrites contactCacheStep_writes,
        ← applyWrites_append, lidFold_writes, ← applyWrites_append, applyWrites_or]
      simp
  · decide

theorem idxOf?_eq_none {l : List Char} {x : Char} : idxOf? l x = none ↔ x ∉ l := by
  induction l with
  | nil => simp [idxOf?]
  | cons c t ih =>
    by_cases hc : c = x
    · subst hc
      simp [idxOf?]
    · have hxc : ¬ x = c := fun h => hc h.symm
      simp [idxOf?, hc, hxc, ih]

theorem idxOf?_take_eq_takeWhile {l : List Char} {x : Char} {j : Nat}
    (h : idxOf? l x = some j) : l.take j = l.takeWhile fun c => c ≠ x := by
  induction l generalizing j with
  | nil => simp [idxOf?] at h
  | cons c t ih =>
    by_cases hc : c = x
    · subst hc
      simp [idxOf?] at h
      subst h
      simp [List.takeWhile]
    · simp only [idxOf?, hc, if_false] at h
      cases h' : idxOf? t x with
      | none =>
        rw [h'] at h
        cases h
      | some j' =>
        rw [h'] at h
        have hj : j' + 1 = j := Option.some.inj h
        subst hj
        simp [List.take, List.takeWhile, hc, ih h']

theorem mk_ne_empty_iff (l : List Char) : ((⟨l⟩ : String) ≠ "") ↔ l ≠ [] := by
  constructor
  · intro h hl
    exact h (by rw [hl])
  · intro h hs
    exact h (by simpa using congrArg String.data hs)

theorem localPart?_eq (s : String) :
    localPart? s =
      if '@' ∈ s.toList ∧ (⟨s.toList.takeWhile fun c => c ≠ '@'⟩ : String) ≠ "" then
        some ⟨s.toList.takeWhile fun c => c ≠ '@'⟩
      else none := by
  obtain ⟨l⟩ := s
  show (match idxOf? l '@' with
    | some i => if 0 < i then some (⟨l.take i⟩ : String) else none
    | none => none) =
    if '@' ∈ l ∧ (⟨l.takeWhile fun c => c ≠ '@'⟩ : String) ≠ "" then
      some (⟨l.takeWhile fun c => c ≠ '@'⟩ : String)
    else none
  induction l with
  | nil => simp [idxOf?]
  | cons c t _ =>
    by_cases hc : c = '@'
    · subst hc
      simp [idxOf?, List.takeWhile]
    · simp only [idxOf?, hc, if_false]
      cases h : idxOf? t '@' with
      | none =>
        have hmem : '@' ∉ t := idxOf?_eq_none.mp h
        have hmem' : '@' ∉ c :: t := by
          intro hx
          rcases List.mem_cons.mp hx with hx | hx
          · exact hc hx.symm
          · exact hmem hx
        simp [hmem']
      | some j =>
        have hmem : '@' ∈ t := by
          by_contra hx
          rw [idxOf?_eq_none.mpr hx] at h
          cases h
        have htw : (c :: t).takeWhile (fun c => c ≠ '@') = c :: t.takeWhile fun c => c ≠ '@' := by
          simp [List.takeWhile, hc]
        have hne : ((⟨c :: t.takeWhile fun c => c ≠ '@'⟩ : String) ≠ "") := by
          rw [mk_ne_empty_iff]
          simp
        simp only [Option.map_some', Nat.zero_lt_succ, if_true, htw,
          List.mem_cons, hmem, or_true, true_and, List.take_succ_cons]
        rw [if_pos hne, idxOf?_take_eq_takeWhile h]

/-- C6 (amended): sender display-name resolution follows the spec's rule, with
the local-part lookup performed only when the first `@` is not the sender's
first character (so the local part is non-empty): "Me" for own messages
overriding the cache, else full identifier, else non-empty local part, else the
raw identifier. -/
theorem resolveMessageSender_rule :
    ∀ (sender : String) (fromMe : Bool) (cache : Cache),
      resolveMessageSender sender fromMe cache = specDisplayName sender fromMe cache := by
  intro sender fromMe cache
  unfold resolveMessageSender specDisplayName resolveSender
  cases fromMe with
  | true => simp
  | false =>
    simp only [Bool.false_eq_true, if_false]
    cases hc : cache sender with
    | some n => rfl
    | none =>
      rw [localPart?_eq]
      by_cases hg : '@' ∈ sender.toList ∧ (⟨sender.toList.takeWhile fun c => c ≠ '@'⟩ : String) ≠ ""
      · rw [if_pos hg, if_pos hg]
      · rw [if_neg hg, if_neg hg]

/-- The counterexample store for C6: a chat with the empty string as key and a
non-empty name, so the built cache maps the empty identifier to "A". -/
def exStore6 : Store := ⟨{ chats := [⟨"", some "A", none⟩], messages := [] }, none⟩

/-- C6 counterexample: for sender "@x" (whose substring before the first `@` is
the empty string) and a cache mapping "" to "A", the code returns the raw
identifier "@x" while the claim's rule ("consult the cache for the substring
before the first @") returns "A". -/
theorem resolveMessageSender_claim_counterexample :
    resolveMessageSender "@x" false (BuildSenderCache exStore6) = "@x" ∧
    claimDisplayName "@x" false (BuildSenderCache exStore6) = "A" ∧
    "@x" ≠ "A" := by
  refine ⟨by decide, by decide, by decide⟩

theorem mem_contextBeforeRows {db : Db} {t : RawMessage} {n : Nat} {r : RawMessage}
    (h : r ∈ contextBeforeRows db t n) :
    r.chatJid = t.chatJid ∧ r.timestamp < t.timestamp := by
  unfold contextBeforeRows at h
  have h2 := (List.mem_insertionSort tsDesc).mp (List.take_subset _ _ h)
  exact of_decide_eq_true (List.mem_filter.mp h2).2

theorem mem_contextAfterRows {db : Db} {t : RawMessage} {n : Nat} {r : RawMessage}
    (h : r ∈ contextAfterRows db t n) :
    r.chatJid = t.chatJid ∧ t.timestamp < r.timestamp := by
  unfold contextAfterRows at h
  have h2 := (List.mem_insertionSort tsAsc).mp (List.take_subset _ _ h)
  exact of_decide_eq_true (List.mem_filter.mp h2).2

theorem contextBeforeRows_sorted (db : Db) (t : RawMessage) (n : Nat) :
    (contextBeforeRows db t n).Pairwise tsDesc :=
  List.Pairwise.sublist (List.take_sublist _ _) (List.sorted_insertionSort tsDesc _)

theorem contextAfterRows_sorted (db : Db) (t : RawMessage) (n : Nat) :
    (contextAfterRows db t n).Pairwise tsAsc :=
  List.Pairwise.sublist (List.take_sublist _ _) (List.sorted_insertionSort tsAsc _)

theorem contextBeforeRows_length (db : Db) (t : RawMessage) (n : Nat) :
    (contextBeforeRows db t n).length ≤ n := by
  unfold contextBeforeRows
  exact List.length_take_le _ _

theorem contextAfterRows_length (db : Db) (t : RawMessage) (n : Nat) :
    (contextAfterRows db t n).length ≤ n := by
  unfold contextAfterRows
  exact List.length_take_le _ _

/-- C3 (amended): for every found target and requested counts b and a, with the
effective counts being 5 when a requested count is 0, the before-sequence is
chronologically nondecreasing (ascending, with ties in equal timestamps
possible), every element strictly earlier than the target, of length at most the
effective count, and drawn from the target's chat; symmetrically for the
after-sequence with strictly later elements. -/
theorem getMessageContext_window_bounds :
    ∀ (s : Store) (messageId : String) (b a : Nat) (w : MessageContextDict),
      GetMessageContext s messageId b a = some w →
      (w.before.length ≤ (if b = 0 then 5 else b) ∧
        w.before.Pairwise (fun d e => d.timestamp ≤ e.timestamp) ∧
        ∀ d ∈ w.before, d.timestamp < w.message.timestamp ∧ d.chatJid = w.message.chatJid) ∧
      (w.after.length ≤ (if a = 0 then 5 else a) ∧
        w.after.Pairwise (fun d e => d.timestamp ≤ e.timestamp) ∧
        ∀ d ∈ w.after, w.message.timestamp < d.timestamp ∧ d.chatJid = w.message.chatJid) := by
  intro s messageId b a w h
  simp only [GetMessageContext] at h
  cases hft : findTarget s.msg messageId with
  | none =>
    rw [hft] at h
    cases h
  | some target =>
    rw [hft] at h
    obtain rfl : _ = w := Option.some.inj h
    refine ⟨⟨?_, ?_, ?_⟩, ⟨?_, ?_, ?_⟩⟩
    · simpa using contextBeforeRows_length s.msg target (if b = 0 then 5 else b)
    · rw [List.pairwise_reverse, List.pairwise_map]
      exact contextBeforeRows_sorted s.msg target _
    · intro d hd
      rw [List.mem_reverse, List.mem_map] at hd
      obtain ⟨r, hr, rfl⟩ := hd
      obtain ⟨hchat, hts⟩ := mem_contextBeforeRows hr
      exact ⟨hts, hchat⟩
    · simpa using contextAfterRows_length s.msg target (if a = 0 then 5 else a)
    · rw [List.pairwise_map]
      exact contextAfterRows_sorted s.msg target _
    · intro d hd
      rw [List.mem_map] at hd
      obtain ⟨r, hr, rfl⟩ := hd
      obtain ⟨hchat, hts⟩ := mem_contextAfterRows hr
      exact ⟨hts, hchat⟩

/-- The counterexample store for C3: a chat with two distinct messages at the
same timestamp 1, a target at timestamp 2, and one message at timestamp 3. -/
def exStore3 : Store :=
  ⟨{ chats := [⟨"c", some "C", some 3⟩]
     messages := [mkMsg "a" "c" "s" "ha" 1 false, mkMsg "b" "c" "s" "hb" 1 false,
       mkMsg "t" "c" "s" "ht" 2 false, mkMsg "x" "c" "s" "hx" 3 false] }, none⟩

/-- C3 counterexample: requesting before=0 and after=0 around the target returns
a before-sequence of length 2 (the default 5 applies, so "length at most the
requested count 0" fails) whose timestamps are [1, 1], which is also not
strictly ascending. -/
theorem getMessageContext_claim_counterexample :
    ((GetMessageContext exStore3 "t" 0 0).map fun w =>
        w.before.map fun d => d.timestamp) = some [1, 1] ∧
    ((GetMessageContext exStore3 "t" 0 0).map fun w =>
        decide (w.before.length ≤ 0 ∧
          w.before.Pairwise fun d e => d.timestamp < e.timestamp)) = some false := by
  constructor
  · decide
  · decide

/-- The context window around the C3 store's target with counts 1/1. -/
def exW3 : MessageContextDict :=
  { message := ⟨"t", 2, "s", "s", "ht", false, "c", some "C", none⟩
    before := [⟨"a", 1, "s", "s", "ha", false, "c", some "C", none⟩]
    after := [⟨"x", 3, "s", "s", "hx", false, "c", some "C", none⟩] }

/-- Witness for C3's amended theorem at counts 1 and 1 on the concrete store. -/
theorem getMessageContext_window_bounds_witness :
    (exW3.before.length ≤ (if 1 = 0 then 5 else 1) ∧
      exW3.before.Pairwise (fun d e => d.timestamp ≤ e.timestamp) ∧
      ∀ d ∈ exW3.before,
        d.timestamp < exW3.message.timestamp ∧ d.chatJid = exW3.message.chatJid) ∧
    (exW3.after.length ≤ (if 1 = 0 then 5 else 1) ∧
      exW3.after.Pairwise (fun d e => d.timestamp ≤ e.timestamp) ∧
      ∀ d ∈ exW3.after,
        exW3.message.timestamp < d.timestamp ∧ d.chatJid = exW3.message.chatJid) :=
  getMessageContext_window_bounds exStore3 "t" 1 1 exW3 (by decide)

/-- C4 (amended): GetContactChats returns only chats that have at least one
stored message in which the identifier is the chat key or the message's sender
(the join is an inner join, so a chat with no stored messages never appears,
even when its key equals the identifier); conversely, on the first page with
every distinct matching tuple fitting within the limit, every such chat appears. -/
theorem getContactChats_inner_join :
    (∀ (s : Store) (jid : String) (limit page : Nat) (d : ChatDict),
      d ∈ GetContactChats s jid limit page →
      ∃ c ∈ s.msg.chats, ∃ m ∈ s.msg.messages,
        m.chatJid = c.jid ∧ (m.sender = jid ∨ c.jid = jid) ∧ d.jid = c.jid) ∧
    (∀ (s : Store) (jid : String) (limit : Nat) (c : Chat) (m : Message),
      (contactChatTuples s.msg jid).dedup.length ≤ (if limit = 0 then 20 else limit) →
      c ∈ s.msg.chats → m ∈ s.msg.messages → m.chatJid = c.jid →
      (m.sender = jid ∨ c.jid = jid) →
      ∃ d ∈ GetContactChats s jid limit 0, d.jid = c.jid) := by
  constructor
  · intro s jid limit page d hd
    simp only [GetContactChats, List.mem_map] at hd
    obtain ⟨r, hr, rfl⟩ := hd
    have hr2 : r ∈ contactChatTuples s.msg jid := by
      have := List.drop_subset _ _ (List.take_subset _ _ hr)
      rw [List.mem_insertionSort] at this
      exact List.mem_dedup.mp this
    simp only [contactChatTuples, List.mem_flatMap, List.mem_map] at hr2
    obtain ⟨c, hc, m, hm, rfl⟩ := hr2
    rw [List.mem_filter] at hm
    obtain ⟨hm, hpred⟩ := hm
    rw [Bool.and_eq_true, Bool.or_eq_true, decide_eq_true_eq, decide_eq_true_eq,
      decide_eq_true_eq] at hpred
    exact ⟨c, hc, m, hm, hpred.1, hpred.2, rfl⟩
  · intro s jid limit c m hlen hc hm hchat hpred
    have htuple : chatMsgRow c m ∈ contactChatTuples s.msg jid := by
      simp only [contactChatTuples, List.mem_flatMap, List.mem_map]
      refine ⟨c, hc, m, ?_, rfl⟩
      rw [List.mem_filter]
      refine ⟨hm, ?_⟩
      rw [Bool.and_eq_true, Bool.or_eq_true, decide_eq_true_eq, decide_eq_true_eq,
        decide_eq_true_eq]
      exact ⟨hchat, hpred⟩
    have hsorted : chatMsgRow c m ∈
        List.insertionSort lastActiveDescRel (contactChatTuples s.msg jid).dedup := by
      rw [List.mem_insertionSort]
      exact List.mem_dedup.mpr htuple
    have hlen2 : (List.insertionSort lastActiveDescRel
        (contactChatTuples s.msg jid).dedup).length ≤ (if limit = 0 then 20 else limit) := by
      rw [(List.perm_insertionSort lastActiveDescRel _).length_eq]
      exact hlen
    refine ⟨(chatMsgRow c m).toDict (BuildSenderCache s), ?_, rfl⟩
    simp only [GetContactChats, List.mem_map]
    refine ⟨chatMsgRow c m, ?_, rfl⟩
    rw [Nat.zero_mul, List.drop_zero, List.take_of_length_le hlen2]
    exact hsorted

/-- A one-chat, five-message store used by several concrete witnesses. -/
def exDb7 : Db :=
  { chats := [⟨"c", some "C", some 5⟩]
    messages := [mkMsg "1" "c" "s" "m1" 1 false, mkMsg "2" "c" "s" "m2" 2 false,
      mkMsg "3" "c" "s" "m3" 3 false, mkMsg "4" "c" "s" "m4" 4 false,
      mkMsg "5" "c" "s" "m5" 5 false] }

/-- The store over `exDb7`, with no whatsmeow database. -/
def exStore7 : Store := ⟨exDb7, none⟩

/-- Witness for C4's amended theorem: a concrete member of a concrete
GetContactChats result comes from a matching (chat, message) pair, and the
matching chat "c" appears in the result. -/
theorem getContactChats_inner_join_witness :
    (∃ c ∈ exStore7.msg.chats, ∃ m ∈ exStore7.msg.messages,
      m.chatJid = c.jid ∧ (m.sender = "s" ∨ c.jid = "s") ∧
        (⟨"c", some "C", false, some 5, some "m1", some "s", some false⟩ : ChatDict).jid =
          c.jid) ∧
    ∃ d ∈ GetContactChats exStore7 "s" 20 0, d.jid = "c" :=
  ⟨getContactChats_inner_join.1 exStore7 "s" 20 0
      ⟨"c", some "C", false, some 5, some "m1", some "s", some false⟩ (by decide),
   getContactChats_inner_join.2 exStore7 "s" 20 ⟨"c", some "C", some 5⟩
     (mkMsg "1" "c" "s" "m1" 1 false) (by decide) (by decide) (by decide) (by decide)
     (Or.inl (by decide))⟩

/-- The counterexample store for C4: one chat whose key is the identifier and no
stored messages at all. -/
def exStore4 : Store :=
  ⟨{ chats := [⟨"x@s.whatsapp.net", some "X", some 1⟩], messages := [] }, none⟩

/-- C4 counterexample: the store holds a chat whose key equals the identifier,
yet GetContactChats returns the empty sequence because the inner join with the
(empty) messages table eliminates the chat. -/
theorem getContactChats_claim_counterexample :
    exStore4.msg.chats.map Chat.jid = ["x@s.whatsapp.net"] ∧
    GetContactChats exStore4 "x@s.whatsapp.net" 0 0 = [] := by
  constructor
  · decide
  · decide

theorem likeMatch_pct {ps t l : List Char} (hsuf : t <:+ l) (h : likeMatch ps t = true) :
    likeMatch ('%' :: ps) l = true := by
  show l.tails.any (fun t => likeMatch ps t) = true
  rw [List.any_eq_true]
  exact ⟨t, (List.mem_tails t l).mpr hsuf, h⟩

theorem sqlLike_of_group_suffix {s : String} (h : ("@g.us".toList) <:+ s.toList) :
    sqlLike s "%@g.us" = true := by
  obtain ⟨pre, hpre⟩ := h
  unfold sqlLike sqlLower
  have hlist : s.toList = pre ++ "@g.us".toList := hpre.symm
  have hcoe : (⟨s.toList.map lowerChar⟩ : String).toList = s.toList.map lowerChar := rfl
  rw [show ((⟨"%@g.us".toList.map lowerChar⟩ : String).toList) = '%' :: ['@', 'g', '.', 'u', 's']
      from by decide,
    hcoe, hlist, List.map_append,
    show ("@g.us".toList.map lowerChar) = ['@', 'g', '.', 'u', 's'] from by decide]
  exact likeMatch_pct ⟨pre.map lowerChar, rfl⟩ (by decide)

/-- C9 (amended): SearchContacts returns at most 50 results; never returns a
chat key matching the group pattern `%@g.us` (in particular none ending in
"@g.us"); results are sorted by name then key; every result comes from a stored
chat satisfying the LIKE-based match (name or key matches `%query%` with `%`/`_`
as wildcards, case-insensitively, and the key does not match the group
pattern); and conversely, when all distinct matching pairs fit in the 50-row
cap, every matching chat appears. -/
theorem searchContacts_cap_group_sort :
    (∀ (db : Db) (q : String), (SearchContacts db q).length ≤ 50) ∧
    (∀ (db : Db) (q : String), ∀ d ∈ SearchContacts db q,
      sqlLike d.jid "%@g.us" = false ∧ ¬ ("@g.us".toList <:+ d.jid.toList)) ∧
    (∀ (db : Db) (q : String),
      (SearchContacts db q).Pairwise fun d e => contactLe (d.jid, d.name) (e.jid, e.name)) ∧
    (∀ (db : Db) (q : String), ∀ d ∈ SearchContacts db q,
      ∃ c ∈ db.chats, c.jid = d.jid ∧ c.name = d.name ∧ chatSearchMatch q c = true) ∧
    (∀ (db : Db) (q : String),
      ((db.chats.filter (chatSearchMatch q)).map fun c => (c.jid, c.name)).dedup.length ≤ 50 →
      ∀ c ∈ db.chats, chatSearchMatch q c = true →
      ∃ d ∈ SearchContacts db q, d.jid = c.jid ∧ d.name = c.name) := by
  have hmem : ∀ (db : Db) (q : String) (d : ContactDict), d ∈ SearchContacts db q →
      ∃ c ∈ db.chats, c.jid = d.jid ∧ c.name = d.name ∧ chatSearchMatch q c = true := by
    intro db q d hd
    simp only [SearchContacts, List.mem_map] at hd
    obtain ⟨p, hp, rfl⟩ := hd
    have hp2 : p ∈ (db.chats.filter (chatSearchMatch q)).map fun c => (c.jid, c.name) := by
      have := List.take_subset _ _ hp
      rw [List.mem_insertionSort] at this
      exact List.mem_dedup.mp this
    rw [List.mem_map] at hp2
    obtain ⟨c, hc, rfl⟩ := hp2
    rw [List.mem_filter] at hc
    exact ⟨c, hc.1, rfl, rfl, hc.2⟩
  refine ⟨?_, ?_, ?_, hmem, ?_⟩
  · intro db q
    simp only [SearchContacts, List.length_map]
    exact List.length_take_le _ _
  · intro db q d hd
    obtain ⟨c, _, hjid, _, hmatch⟩ := hmem db q d hd
    unfold chatSearchMatch at hmatch
    rw [Bool.and_eq_true] at hmatch
    have hfalse : sqlLike c.jid "%@g.us" = false := by
      cases h : sqlLike c.jid "%@g.us"
      · rfl
      · rw [h] at hmatch
        exact absurd hmatch.2 (by decide)
    rw [← hjid]
    refine ⟨hfalse, fun hsuf => ?_⟩
    rw [sqlLike_of_group_suffix hsuf] at hfalse
    cases hfalse
  · intro db q
    simp only [SearchContacts]
    rw [List.pairwise_map]
    exact List.Pairwise.sublist (List.take_sublist _ _)
      (List.sorted_insertionSort contactLe _)
  · intro db q hlen c hc hmatch
    have hpair : (c.jid, c.name) ∈
        ((db.chats.filter (chatSearchMatch q)).map fun c => (c.jid, c.name)).dedup := by
      rw [List.mem_dedup, List.mem_map]
      exact ⟨c, List.mem_filter.mpr ⟨hc, hmatch⟩, rfl⟩
    have hsorted : (c.jid, c.name) ∈ List.insertionSort contactLe
        ((db.chats.filter (chatSearchMatch q)).map fun c => (c.jid, c.name)).dedup := by
      rw [List.mem_insertionSort]
      exact hpair
    have hlen2 : (List.insertionSort contactLe
        ((db.chats.filter (chatSearchMatch q)).map fun c => (c.jid, c.name)).dedup).length ≤
          50 := by
      rw [(List.perm_insertionSort contactLe _).length_eq]
      exact hlen
    refine ⟨{ phoneNumber := (localPart? c.jid).getD c.jid, name := c.name, jid := c.jid },
      ?_, rfl, rfl⟩
    simp only [SearchContacts, List.mem_map]
    refine ⟨(c.jid, c.name), ?_, rfl⟩
    rw [List.take_of_length_le hlen2]
    exact hsorted

/-- The counterexample database for C9: a single non-group chat named "Bob". -/
def exDb9 : Db := { chats := [⟨"1@s.whatsapp.net", some "Bob", none⟩], messages := [] }

/-- C9 counterexample: the query "%" is a LIKE wildcard, so SearchContacts
returns the chat although "%" is not a case-insensitive substring of either its
name or its key, refuting the claim's substring-based characterization. -/
theorem searchContacts_claim_counterexample :
    (SearchContacts exDb9 "%").map ContactDict.jid = ["1@s.whatsapp.net"] ∧
    containsCI "%" "Bob" = false ∧ containsCI "%" "1@s.whatsapp.net" = false := by
  refine ⟨by decide, by decide, by decide⟩

/-- Witness for C9's amended theorem on a concrete database and query. -/
theorem searchContacts_cap_group_sort_witness :
    (SearchContacts exDb9 "bob").length ≤ 50 ∧
    (sqlLike (⟨"1", some "Bob", "1@s.whatsapp.net"⟩ : ContactDict).jid "%@g.us" = false ∧
      ¬ ("@g.us".toList <:+
        (⟨"1", some "Bob", "1@s.whatsapp.net"⟩ : ContactDict).jid.toList)) ∧
    (SearchContacts exDb9 "bob").Pairwise
      (fun d e => contactLe (d.jid, d.name) (e.jid, e.name)) ∧
    (∃ c ∈ exDb9.chats, c.jid = (⟨"1", some "Bob", "1@s.whatsapp.net"⟩ : ContactDict).jid ∧
      c.name = (⟨"1", some "Bob", "1@s.whatsapp.net"⟩ : ContactDict).name ∧
      chatSearchMatch "bob" c = true) ∧
    ∃ d ∈ SearchContacts exDb9 "bob",
      d.jid = "1@s.whatsapp.net" ∧ d.name = some "Bob" :=
  ⟨searchContacts_cap_group_sort.1 exDb9 "bob",
   searchContacts_cap_group_sort.2.1 exDb9 "bob" _ (by decide),
   searchContacts_cap_group_sort.2.2.1 exDb9 "bob",
   searchContacts_cap_group_sort.2.2.2.1 exDb9 "bob" _ (by decide),
   searchContacts_cap_group_sort.2.2.2.2 exDb9 "bob" (by decide)
     ⟨"1@s.whatsapp.net", some "Bob", none⟩ (by decide) (by decide)⟩

/-- The composite key (id, chat key) of a scanned row. -/
def rawKey (r : RawMessage) : String × String := (r.id, r.chatJid)

/-- The composite key (id, chat key) of a projected message. -/
def dictKey (d : MessageDict) : String × String := (d.id, d.chatJid)

theorem filterMapJoin_keys_sublist (chats : List Chat) (msgs : List Message) :
    List.Sublist
      ((msgs.filterMap fun m =>
        (chats.find? fun c => decide (c.jid = m.chatJid)).map fun c =>
          ({ timestamp := m.timestamp, sender := m.sender, chatName := c.name
             content := m.content, isFromMe := m.isFromMe, chatJid := c.jid, id := m.id
             mediaType := m.mediaType } : RawMessage)).map rawKey)
      (msgs.map fun m => (m.id, m.chatJid)) := by
  induction msgs with
  | nil => simp
  | cons m t ih =>
    rw [List.filterMap_cons]
    cases h : chats.find? fun c => decide (c.jid = m.chatJid) with
    | none =>
      rw [List.map_cons]
      exact ih.cons _
    | some c =>
      have hc0 := List.find?_some h
      simp only [decide_eq_true_eq] at hc0
      simp only [Option.map_some', List.map_cons]
      dsimp only [rawKey]
      rw [hc0]
      exact ih.cons₂ _

theorem joinRows_keys_sublist (db : Db) :
    List.Sublist ((joinRows db).map rawKey)
      (db.messages.map fun m => (m.id, m.chatJid)) :=
  filterMapJoin_keys_sublist db.chats db.messages

theorem joinRows_keys_nodup {db : Db}
    (h : (db.messages.map fun m => (m.id, m.chatJid)).Nodup) :
    ((joinRows db).map rawKey).Nodup :=
  (joinRows_keys_sublist db).nodup h

theorem dictKey_rawToDict (r : RawMessage) (cache : Cache) :
    dictKey (rawToDict r cache) = rawKey r := rfl

/-- C7: with no filters, ListMessages at limit 2 for pages 0 and 1 returns
contiguous windows whose in-order concatenation is exactly the limit-4 page-0
result, and (given the table's primary-key uniqueness on (id, chat key)) the two
pages are disjoint. -/
theorem listMessages_pagination :
    ∀ s : Store,
      (s.msg.messages.map fun m => (m.id, m.chatJid)).Nodup →
      ListMessages s ⟨none, none, none, none, none, 2, 0, false, 0, 0⟩ ++
          ListMessages s ⟨none, none, none, none, none, 2, 1, false, 0, 0⟩ =
        ListMessages s ⟨none, none, none, none, none, 4, 0, false, 0, 0⟩ ∧
      (ListMessages s ⟨none, none, none, none, none, 2, 0, false, 0, 0⟩).Disjoint
        (ListMessages s ⟨none, none, none, none, none, 2, 1, false, 0, 0⟩) := by
  intro s hnodup
  have hfilter : ∀ (l p : Nat),
      (joinRows s.msg).filter (msgMatch ⟨none, none, none, none, none, l, p, false, 0, 0⟩) =
        joinRows s.msg :=
    fun l p => List.filter_eq_self.mpr fun r _ => rfl
  have hLM : ∀ (l p : Nat), ¬ l = 0 →
      ListMessages s ⟨none, none, none, none, none, l, p, false, 0, 0⟩ =
        List.map (fun m => rawToDict m (BuildSenderCache s))
          (((List.insertionSort tsDesc (joinRows s.msg)).drop (p * l)).take l) := by
    intro l p hl
    simp only [ListMessages, withDefaults, listMessagesRows, hl, if_false, hfilter]
    simp
    rw [hfilter l p]
  set sorted := List.insertionSort tsDesc (joinRows s.msg) with hsorted
  have h20 : ListMessages s ⟨none, none, none, none, none, 2, 0, false, 0, 0⟩ =
      (sorted.take 2).map (fun m => rawToDict m (BuildSenderCache s)) :=
    (hLM 2 0 (by decide)).trans (by norm_num)
  have h21 : ListMessages s ⟨none, none, none, none, none, 2, 1, false, 0, 0⟩ =
      ((sorted.drop 2).take 2).map (fun m => rawToDict m (BuildSenderCache s)) :=
    (hLM 2 1 (by decide)).trans (by norm_num)
  have h40 : ListMessages s ⟨none, none, none, none, none, 4, 0, false, 0, 0⟩ =
      (sorted.take 4).map (fun m => rawToDict m (BuildSenderCache s)) :=
    (hLM 4 0 (by decide)).trans (by norm_num)
  have hsplit : sorted.take 2 ++ (sorted.drop 2).take 2 = sorted.take 4 := by
    rw [List.take_drop]
    have h1 : sorted.take 2 = (sorted.take (2 + 2)).take 2 := by
      rw [List.take_take]
      norm_num
    rw [h1, List.take_append_drop]
  have hkeys : (sorted.map rawKey).Nodup := by
    have hperm : List.Perm (sorted.map rawKey) ((joinRows s.msg).map rawKey) :=
      (List.perm_insertionSort tsDesc (joinRows s.msg)).map rawKey
    exact hperm.symm.nodup (joinRows_keys_nodup hnodup)
  refine ⟨?_, ?_⟩
  · rw [h20, h21, h40, ← List.map_append, hsplit]
  · rw [h20, h21]
    intro d hd0 hd1
    rw [List.mem_map] at hd0 hd1
    obtain ⟨r0, hr0, rfl⟩ := hd0
    obtain ⟨r1, hr1, hr1d⟩ := hd1
    have hk4 : ((sorted.take 4).map rawKey).Nodup :=
      ((List.take_sublist 4 sorted).map rawKey).nodup hkeys
    have hk4' : ((sorted.take 2).map rawKey ++ ((sorted.drop 2).take 2).map rawKey).Nodup := by
      rw [← List.map_append, hsplit]
      exact hk4
    have hdisj := List.disjoint_of_nodup_append hk4'
    apply hdisj (List.mem_map_of_mem rawKey hr0)
    have : rawKey r1 = rawKey r0 := by
      have := congrArg dictKey hr1d
      rwa [dictKey_rawToDict, dictKey_rawToDict] at this
    rw [← this]
    exact List.mem_map_of_mem rawKey hr1

/-- Witness for C7 on a concrete five-message store with distinct keys. -/
theorem listMessages_pagination_witness :
    ListMessages exStore7 ⟨none, none, none, none, none, 2, 0, false, 0, 0⟩ ++
        ListMessages exStore7 ⟨none, none, none, none, none, 2, 1, false, 0, 0⟩ =
      ListMessages exStore7 ⟨none, none, none, none, none, 4, 0, false, 0, 0⟩ ∧
    (ListMessages exStore7 ⟨none, none, none, none, none, 2, 0, false, 0, 0⟩).Disjoint
      (ListMessages exStore7 ⟨none, none, none, none, none, 2, 1, false, 0, 0⟩) :=
  listMessages_pagination exStore7 (by decide)

theorem dedupByIdAux_congr {s₁ s₂ : List String} (h : ∀ x, x ∈ s₁ ↔ x ∈ s₂) :
    ∀ l : List RawMessage, dedupByIdAux s₁ l = dedupByIdAux s₂ l := by
  intro l
  induction l generalizing s₁ s₂ with
  | nil => rfl
  | cons m ms ih =>
    unfold dedupByIdAux
    by_cases hm : m.id ∈ s₁
    · rw [if_pos hm, if_pos ((h m.id).mp hm)]
      exact ih h
    · rw [if_neg hm, if_neg (fun hx => hm ((h m.id).mpr hx))]
      congr 1
      exact ih fun x => by simp [h x]

theorem dedupByIdAux_append (s : List String) (l₁ l₂ : List RawMessage) :
    dedupByIdAux s (l₁ ++ l₂) =
      dedupByIdAux s l₁ ++
        dedupByIdAux (((dedupByIdAux s l₁).map fun m => m.id) ++ s) l₂ := by
  induction l₁ generalizing s with
  | nil => simp [dedupByIdAux]
  | cons m t ih =>
    by_cases hm : m.id ∈ s
    · simp only [List.cons_append, dedupByIdAux, hm, if_true]
      exact ih s
    · simp only [List.cons_append, dedupByIdAux, hm, if_false, List.map_cons, List.cons_append,
        List.append_eq]
      rw [ih (m.id :: s)]
      congr 1
      congr 1
      exact dedupByIdAux_congr
        (fun x => by simp only [List.mem_append, List.mem_cons]; tauto) l₂

theorem dedupByIdAux_ids_nodup (l : List RawMessage) :
    ∀ seen : List String,
      (((dedupByIdAux seen l).map fun m => m.id).Nodup ∧
        ∀ x ∈ (dedupByIdAux seen l).map fun m => m.id, x ∉ seen) := by
  induction l with
  | nil => intro seen; exact ⟨List.nodup_nil, by simp [dedupByIdAux]⟩
  | cons m ms ih =>
    intro seen
    unfold dedupByIdAux
    by_cases hm : m.id ∈ seen
    · rw [if_pos hm]
      exact ih seen
    · rw [if_neg hm]
      obtain ⟨hnd, hdisj⟩ := ih (m.id :: seen)
      refine ⟨?_, ?_⟩
      · rw [List.map_cons, List.nodup_cons]
        exact ⟨fun hx => hdisj _ hx (List.mem_cons_self _ _), hnd⟩
      · intro x hx
        rw [List.map_cons, List.mem_cons] at hx
        rcases hx with rfl | hx
        · exact hm
        · exact fun hxs => hdisj x hx (List.mem_cons_of_mem _ hxs)

theorem emitWindow_eq (cache : Cache) (ctx : List RawMessage) :
    ∀ acc : List MessageDict × List String,
      emitWindow cache acc ctx =
        (acc.1 ++ (dedupByIdAux acc.2 ctx).map fun m => rawToDict m cache,
         ((dedupByIdAux acc.2 ctx).map fun m => m.id).reverse ++ acc.2) := by
  induction ctx with
  | nil => intro acc; simp [emitWindow, dedupByIdAux]
  | cons m ms ih =>
    intro acc
    show emitWindow cache (emitMsg cache acc m) ms = _
    unfold emitMsg dedupByIdAux
    by_cases hm : m.id ∈ acc.2
    · rw [if_pos hm, if_pos hm, ih acc]
    · rw [if_neg hm, if_neg hm,
        ih (acc.1 ++ [rawToDict m cache], m.id :: acc.2)]
      simp [List.append_assoc]

theorem emitWindows_eq (cache : Cache) (ws : List (List RawMessage)) :
    ∀ acc : List MessageDict × List String,
      (ws.foldl (emitWindow cache) acc).1 =
        acc.1 ++ (dedupByIdAux acc.2 ws.flatten).map (fun m => rawToDict m cache) ∧
      ∀ x, x ∈ (ws.foldl (emitWindow cache) acc).2 ↔
        x ∈ (((dedupByIdAux acc.2 ws.flatten).map fun m => m.id) ++ acc.2) := by
  induction ws with
  | nil => intro acc; simp [dedupByIdAux]
  | cons w ws ih =>
    intro acc
    rw [List.foldl_cons, emitWindow_eq cache w acc]
    obtain ⟨ih1, ih2⟩ := ih
      (acc.1 ++ (dedupByIdAux acc.2 w).map fun m => rawToDict m cache,
       ((dedupByIdAux acc.2 w).map fun m => m.id).reverse ++ acc.2)
    have hseen : dedupByIdAux
        (((dedupByIdAux acc.2 w).map fun m => m.id).reverse ++ acc.2) ws.flatten =
        dedupByIdAux (((dedupByIdAux acc.2 w).map fun m => m.id) ++ acc.2) ws.flatten := by
      apply dedupByIdAux_congr
      intro x
      simp [List.mem_append, List.mem_reverse]
    constructor
    · rw [ih1, hseen, List.flatten_cons, dedupByIdAux_append, List.map_append,
        List.append_assoc]
    · intro x
      rw [ih2 x, hseen, List.flatten_cons, dedupByIdAux_append, List.map_append]
      simp only [List.mem_append, List.mem_reverse]
      tauto

theorem mem_listMessagesRows {db : Db} {o : ListMessagesOpts} {m : RawMessage}
    (h : m ∈ listMessagesRows db o) : m ∈ joinRows db := by
  unfold listMessagesRows at h
  have h2 := List.drop_subset _ _ (List.take_subset _ _ h)
  rw [List.mem_insertionSort] at h2
  exact List.mem_of_mem_filter h2

theorem getMessageContextRaw_isSome_of_mem {db : Db} {m : RawMessage}
    (h : m ∈ joinRows db) (b a : Nat) :
    (getMessageContextRaw db m.id b a).isSome := by
  unfold getMessageContextRaw findTarget
  cases hf : (joinRows db).find? fun r => decide (r.id = m.id) with
  | none =>
    rw [List.find?_eq_none] at hf
    exact absurd (by simp) (hf m h)
  | some t => rfl

theorem withDefaults_includeContext (o : ListMessagesOpts) :
    (withDefaults o).includeContext = o.includeContext := by
  unfold withDefaults
  dsimp only
  split_ifs <;> rfl

theorem foldl_ctx_eq (db : Db) (cache : Cache) (b a : Nat) :
    ∀ (msgs : List RawMessage),
      (∀ m ∈ msgs, (getMessageContextRaw db m.id b a).isSome) →
      ∀ acc : List MessageDict × List String,
        msgs.foldl
          (fun acc msg =>
            match getMessageContextRaw db msg.id b a with
            | none => acc
            | some ctx => emitWindow cache acc ctx)
          acc =
        (msgs.map fun m => (getMessageContextRaw db m.id b a).getD []).foldl
          (emitWindow cache) acc := by
  intro msgs
  induction msgs with
  | nil => intro _ acc; rfl
  | cons m t ih =>
    intro hall acc
    rw [List.map_cons, List.foldl_cons, List.foldl_cons]
    obtain ⟨ctx, hctx⟩ := Option.isSome_iff_exists.mp (hall m (List.mem_cons_self m t))
    rw [hctx]
    simp only [Option.getD_some]
    exact ih (fun x hx => hall x (List.mem_cons_of_mem m hx)) _

/-- Helper: with includeContext set, ListMessages is the projection of the
first-occurrence-wins de-duplication of the concatenated context windows of the
matched rows, in match order. -/
theorem listMessages_context_eq (s : Store) (o : ListMessagesOpts)
    (hic : o.includeContext = true) :
    ListMessages s o =
      (dedupById
        (((listMessagesRows s.msg (withDefaults o)).map fun m =>
          (getMessageContextRaw s.msg m.id (withDefaults o).contextBefore
            (withDefaults o).contextAfter).getD []).flatten)).map
        fun m => rawToDict m (BuildSenderCache s) := by
  have hic' : (withDefaults o).includeContext = true := by
    rw [withDefaults_includeContext o, hic]
  by_cases hempty : listMessagesRows s.msg (withDefaults o) = []
  · unfold ListMessages
    rw [if_neg fun hcon => hcon.2 hempty, hempty]
    simp [dedupById, dedupByIdAux]
  · unfold ListMessages
    rw [if_pos ⟨hic', hempty⟩]
    rw [foldl_ctx_eq s.msg (BuildSenderCache s) (withDefaults o).contextBefore
      (withDefaults o).contextAfter (listMessagesRows s.msg (withDefaults o))
      (fun m hm => getMessageContextRaw_isSome_of_mem (mem_listMessagesRows hm) _ _) ([], [])]
    rw [(emitWindows_eq (BuildSenderCache s) _ ([], [])).1]
    rfl

/-- Helper: with includeContext set, no message id is emitted twice. -/
theorem listMessages_ids_nodup (s : Store) (o : ListMessagesOpts)
    (hic : o.includeContext = true) :
    ((ListMessages s o).map fun d => d.id).Nodup := by
  rw [listMessages_context_eq s o hic, List.map_map]
  have heq : ((fun d : MessageDict => d.id) ∘ fun m => rawToDict m (BuildSenderCache s)) =
      fun m : RawMessage => m.id := rfl
  rw [heq]
  exact (dedupByIdAux_ids_nodup _ []).1

/-- C1: with includeContext set, the ListMessages result is exactly the
concatenation, in match order, of each matched row's context window
(before ++ target ++ after), skipping every message id already emitted by an
earlier window; consequently no id appears twice, and no global re-sort happens
across windows. -/
theorem listMessages_context_concat_dedup :
    ∀ (s : Store) (o : ListMessagesOpts), o.includeContext = true →
      ListMessages s o =
        (dedupById
          (((listMessagesRows s.msg (withDefaults o)).map fun m =>
            (getMessageContextRaw s.msg m.id (withDefaults o).contextBefore
              (withDefaults o).contextAfter).getD []).flatten)).map
          (fun m => rawToDict m (BuildSenderCache s)) ∧
      ((ListMessages s o).map fun d => d.id).Nodup :=
  fun s o hic => ⟨listMessages_context_eq s o hic, listMessages_ids_nodup s o hic⟩

/-- Witness for C1 on the concrete five-message store, limit 2, context 1/1. -/
theorem listMessages_context_concat_dedup_witness :
    ListMessages exStore7 ⟨none, none, none, none, none, 2, 0, true, 1, 1⟩ =
      (dedupById
        (((listMessagesRows exStore7.msg
            (withDefaults ⟨none, none, none, none, none, 2, 0, true, 1, 1⟩)).map fun m =>
          (getMessageContextRaw exStore7.msg m.id
            (withDefaults ⟨none, none, none, none, none, 2, 0, true, 1, 1⟩).contextBefore
            (withDefaults ⟨none, none, none, none, none, 2, 0, true, 1, 1⟩).contextAfter).getD
            []).flatten)).map
        (fun m => rawToDict m (BuildSenderCache exStore7)) ∧
    ((ListMessages exStore7 ⟨none, none, none, none, none, 2, 0, true, 1, 1⟩).map
      fun d => d.id).Nodup :=
  listMessages_context_concat_dedup exStore7 ⟨none, none, none, none, none, 2, 0, true, 1, 1⟩
    rfl

/-- C10: context expansion identifies messages by id alone: the de-duplicated
includeContext result never repeats an id (so of two distinct stored messages
sharing an id at most one can appear), the context lookup fails exactly when no
joined row carries the id (regardless of chat), and on success the target is the
first row in storage order with that id, with the whole window drawn from that
row's chat. -/
theorem contextTarget_by_id_storage_order :
    (∀ (s : Store) (o : ListMessagesOpts), o.includeContext = true →
      ((ListMessages s o).map fun d => d.id).Nodup) ∧
    (∀ (db : Db) (messageId : String) (b a : Nat),
      (getMessageContextRaw db messageId b a = none ↔
        ∀ r ∈ joinRows db, ¬ r.id = messageId) ∧
      (∀ w, getMessageContextRaw db messageId b a = some w →
        ∃ pre t post, joinRows db = pre ++ t :: post ∧ t.id = messageId ∧
          (∀ r ∈ pre, ¬ r.id = messageId) ∧ t ∈ w ∧
          ∀ r ∈ w, r.chatJid = t.chatJid)) := by
  constructor
  · exact fun s o h => listMessages_ids_nodup s o h
  · intro db messageId b a
    constructor
    · unfold getMessageContextRaw findTarget
      cases hf : (joinRows db).find? fun r => decide (r.id = messageId) with
      | none =>
        rw [List.find?_eq_none] at hf
        exact ⟨fun _ r hr heq => by simpa [heq] using hf r hr, fun _ => rfl⟩
      | some t =>
        refine ⟨fun h => Option.noConfusion h, fun hall => ?_⟩
        have hpt := List.find?_some hf
        simp only [decide_eq_true_eq] at hpt
        exact absurd hpt (hall t (List.mem_of_find?_eq_some hf))
    · intro w hw
      unfold getMessageContextRaw findTarget at hw
      cases hf : (joinRows db).find? fun r => decide (r.id = messageId) with
      | none =>
        rw [hf] at hw
        exact Option.noConfusion hw
      | some t =>
        rw [hf] at hw
        obtain rfl : _ = w := Option.some.inj hw
        rw [List.find?_eq_some] at hf
        obtain ⟨hpt, pre, post, heq, hall⟩ := hf
        refine ⟨pre, t, post, heq, of_decide_eq_true hpt, ?_, ?_, ?_⟩
        · intro r hr
          have := hall r hr
          simpa using this
        · exact List.mem_append_right _ (List.mem_cons_self _ _)
        · intro r hr
          rcases List.mem_append.mp hr with hr | hr
          · rw [List.mem_reverse] at hr
            exact (mem_contextBeforeRows hr).1
          · rcases List.mem_cons.mp hr with rfl | hr
            · rfl
            · exact (mem_contextAfterRows hr).1

/-- The C10 store: two chats each holding a message whose id is "X". -/
def exDb10 : Db :=
  { chats := [⟨"A", some "ChatA", some 11⟩, ⟨"B", some "ChatB", some 21⟩]
    messages := [mkMsg "X" "A" "s" "mA" 10 false, mkMsg "X" "B" "s" "mB" 20 false,
      mkMsg "p" "A" "s" "pre" 9 false, mkMsg "q" "B" "s" "post" 21 false] }

/-- The context window around id "X" in `exDb10` with counts 1/1: it is built
around chat A's copy (first in storage order), not chat B's. -/
def exW10 : List RawMessage :=
  [⟨9, "s", some "ChatA", "pre", false, "A", "p", ""⟩,
   ⟨10, "s", some "ChatA", "mA", false, "A", "X", ""⟩]

/-- Witness for C10 at the duplicate-id store and the five-message store. -/
theorem contextTarget_by_id_storage_order_witness :
    ((ListMessages exStore7 ⟨none, none, none, none, none, 4, 0, true, 1, 1⟩).map
      fun d => d.id).Nodup ∧
    ∃ pre t post, joinRows exDb10 = pre ++ t :: post ∧ t.id = "X" ∧
      (∀ r ∈ pre, ¬ r.id = "X") ∧ t ∈ exW10 ∧ ∀ r ∈ exW10, r.chatJid = t.chatJid :=
  ⟨contextTarget_by_id_storage_order.1 exStore7 ⟨none, none, none, none, none, 4, 0, true, 1, 1⟩
      rfl,
   (contextTarget_by_id_storage_order.2 exDb10 "X" 1 1).2 exW10 (by decide)⟩

end Wahoo
